import Mathlib

/-!
Verification of the coral-ui session store and run orchestration.

Shallow embedding of the session-state logic of `src/app.py` (a Streamlit UI)
and the adapter shape of `src/inference.py`.

Image blobs are opaque byte strings, modelled as `List Nat`.  The PIL
image/PNG codec is external to the core (the store only ever holds the encoded
bytes and never inspects them beyond Python truthiness), so the adapter results
are modelled as carrying the encoded overlay/gradcam bytes directly.

The Streamlit session dictionaries `outputs_overlay` and `outputs_gradcam`
(`Dict[str, bytes]`) are modelled as association lists with Python-dict
semantics: `dictGet` returns the value of the unique binding or `none`, and
`dictSet` overwrites in place (insertion order preserved, as in Python 3.7+).
The list `st.session_state.files` is kept as a literal list of
`(name, bytes)` records, since `app.py` stores it as a list and searches it
linearly.
-/

/-- Raw image bytes: an opaque blob.  Python truthiness of `bytes` is
emptiness of the list. -/
abbrev Bytes := List Nat

/-- One record of `st.session_state.files`: `{"name": ..., "bytes": ...}`
(src/app.py:21,66). -/
abbrev FileRec := String × Bytes

/-- Python-dict lookup `d.get(k)`: value of the binding for `k`, or `none`. -/
def dictGet : List (String × Bytes) → String → Option Bytes
  | [], _ => none
  | (k, v) :: rest, n => if k = n then some v else dictGet rest n

/-- Python-dict assignment `d[k] = v`: overwrite the binding for `k` in place,
appending a fresh binding when absent. -/
def dictSet : List (String × Bytes) → String → Bytes → List (String × Bytes)
  | [], n, b => [(n, b)]
  | (k, v) :: rest, n, b =>
    if k = n then (n, b) :: rest else (k, v) :: dictSet rest n b

/-- The session state of `app.py` (src/app.py:19-27): the uploaded files and
the two result caches keyed by file name. -/
structure SessionState where
  files : List FileRec
  outputs_overlay : List (String × Bytes)
  outputs_gradcam : List (String × Bytes)
  deriving Repr, DecidableEq

/-- The state at session start: all three containers empty
(src/app.py:19-27). -/
def emptySession : SessionState :=
  { files := [], outputs_overlay := [], outputs_gradcam := [] }

/-- The names currently known to the store (`all_names`, src/app.py:73). -/
def SessionState.names (st : SessionState) : List String :=
  st.files.map Prod.fst

/-- The linear search of `get_original_pil` (src/app.py:32-34): first record
whose name matches wins. -/
def findBytes : List FileRec → String → Option Bytes
  | [], _ => none
  | (k, v) :: rest, n => if k = n then some v else findBytes rest n

/-- The helper `get_original_pil(name)` (src/app.py:30-35) at the store level: the bytes
of the first matching record, or the `KeyError` message when no record
matches.  The PIL decode of the found bytes is display-side and elided. -/
def getOriginal (st : SessionState) (n : String) : Except String Bytes :=
  match findBytes st.files n with
  | some b => Except.ok b
  | none => Except.error (n ++ " not found")

/-- The helper `get_overlay_pil(name)` (src/app.py:37-40) at the store level:
`b = outputs_overlay.get(name)`, present only when `b` is truthy
(`if b else None`), so an empty blob reads as absent. -/
def getOverlay (st : SessionState) (n : String) : Option Bytes :=
  match dictGet st.outputs_overlay n with
  | some b => if b = [] then none else some b
  | none => none

/-- The helper `get_gradcam_pil(name)` (src/app.py:42-45) at the store level, with the
same truthiness test as `get_overlay_pil`. -/
def getGradcam (st : SessionState) (n : String) : Option Bytes :=
  match dictGet st.outputs_gradcam n with
  | some b => if b = [] then none else some b
  | none => none

/-- The spec's `get_artifact(name) -> Optional[Artifact]`: an artifact exists
exactly when an overlay has been cached (every completed run writes one,
src/app.py:120-123), and it bundles the primary blob with the optional
secondary blob. -/
def getArtifact (st : SessionState) (n : String) : Option (Bytes × Option Bytes) :=
  match getOverlay st n with
  | some ov => some (ov, getGradcam st n)
  | none => none

/-- The upload-merge loop body (src/app.py:64-66): append each upload whose
name is not in `existing`; `existing` is the snapshot taken BEFORE the loop
(src/app.py:63) and is never updated inside it. -/
def mergeLoop (existing : List String) : List FileRec → List FileRec → List FileRec
  | files, [] => files
  | files, uf :: rest =>
    if uf.1 ∈ existing then mergeLoop existing files rest
    else mergeLoop existing (files ++ [uf]) rest

/-- The whole upload merge (src/app.py:62-66): snapshot the existing names,
then run the loop over the batch. -/
def mergeUploads (st : SessionState) (uploads : List FileRec) : SessionState :=
  let existing := st.files.map Prod.fst
  { st with files := mergeLoop existing st.files uploads }

/-- The spec's `add_image(name, bytes)`: a single-file upload batch. -/
def addImage (st : SessionState) (n : String) (b : Bytes) : SessionState :=
  mergeUploads st [(n, b)]

/-- The default-selection policy (src/app.py:78-79):
`all_names if select_all else all_names[: min(4, len(all_names))]`. -/
def defaultSelection (select_all : Bool) (all_names : List String) : List String :=
  if select_all then all_names else all_names.take (min 4 all_names.length)

/-- Modelled from the spec: the Selection Resolver's filtering step.  The
filtering itself happens inside the external `st.multiselect` widget
(src/app.py:80-85), whose code is not in this repository; per the spec the
widget returns an ordered subset of `options = all_names`, silently dropping
any stale selection entry absent from the known names. -/
def resolveSelection (known : List String) (raw : List String) : List String :=
  raw.filter (fun n => n ∈ known)

/-- The shape of `pipe.run(img)` results: `inference.py`'s stub returns a
2-tuple `(overlay, results)` (src/inference.py:25) and the UI also accepts a
3-tuple `(overlay, results, gradcam)` (src/app.py:112-118).  `ρ` is the type
of the opaque `results` record, which the UI discards.  Overlay and gradcam
carry their encoded bytes (see module docstring). -/
inductive RunResult (ρ : Type) where
  | two (overlay : Bytes) (results : ρ)
  | three (overlay : Bytes) (results : ρ) (gradcam : Bytes)
  deriving Repr, DecidableEq

/-- The store writes of one run-loop iteration (src/app.py:114-129): the
overlay is always written; the gradcam is written only when the result
supplied one (`if gradcam_pil is not None`), and is otherwise left alone. -/
def saveResult (st : SessionState) (n : String) : RunResult ρ → SessionState
  | RunResult.two ov _ =>
    { st with outputs_overlay := dictSet st.outputs_overlay n ov }
  | RunResult.three ov _ gc =>
    { st with outputs_overlay := dictSet st.outputs_overlay n ov,
              outputs_gradcam := dictSet st.outputs_gradcam n gc }

/-- The overlay half of the spec's `put_artifact` (src/app.py:123):
`st.session_state.outputs_overlay[name] = buf.getvalue()`. -/
def putOverlay (st : SessionState) (n : String) (b : Bytes) : SessionState :=
  { st with outputs_overlay := dictSet st.outputs_overlay n b }

/-- What aborts a batch iteration: `get_original_pil` raising `KeyError`
(src/app.py:35,110), or the adapter call raising (src/app.py:113).  The code
wraps neither; the exception propagates as-is out of the `for` loop. -/
inductive BatchError (ε : Type) where
  | notFound (name : String)
  | adapter (e : ε)
  deriving Repr, DecidableEq

/-- The run loop (src/app.py:109-131), one iteration per selected name in
order: fetch the original, call the adapter, write the result into the
session, emit the progress event.  `idx` is the 1-based `enumerate` counter
and `total = len(selected_names)`; the progress call receives
`idx / total` and the caption `"Processed idx/total"`, both functions of
`(idx, total)`, so the event is modelled as that pair.  Because the Python
loop mutates the session dictionaries in place, an aborted batch still
returns the state written so far, with the propagated error alongside. -/
def runBatchAux (adapter : Bytes → Except ε (RunResult ρ)) (total : Nat) :
    SessionState → Nat → List String →
      SessionState × List (Nat × Nat) × Option (BatchError ε)
  | st, _, [] => (st, [], none)
  | st, idx, n :: rest =>
    match getOriginal st n with
    | Except.error _ => (st, [], some (BatchError.notFound n))
    | Except.ok b =>
      match adapter b with
      | Except.error e => (st, [], some (BatchError.adapter e))
      | Except.ok ret =>
        let out := runBatchAux adapter total (saveResult st n ret) (idx + 1) rest
        (out.1, (idx, total) :: out.2.1, out.2.2)

/-- The operation `run_batch` over an ordered selection (src/app.py:104-131): the loop with
`enumerate(selected_names, start=1)` and `total = len(selected_names)`. -/
def runBatch (adapter : Bytes → Except ε (RunResult ρ)) (st : SessionState)
    (names : List String) :
    SessionState × List (Nat × Nat) × Option (BatchError ε) :=
  runBatchAux adapter names.length st 1 names

/-- The overlay component of an adapter result, regardless of arity. -/
def RunResult.overlayOf : RunResult ρ → Bytes
  | RunResult.two ov _ => ov
  | RunResult.three ov _ _ => ov

/- Helper lemmas about the dictionary model. -/

theorem dictGet_dictSet_self (m : List (String × Bytes)) (n : String) (b : Bytes) :
    dictGet (dictSet m n b) n = some b := by
  induction m with
  | nil => simp [dictSet, dictGet]
  | cons kv rest ih =>
    obtain ⟨k, v⟩ := kv
    by_cases h : k = n
    · simp [dictSet, dictGet, h]
    · simp [dictSet, dictGet, h, ih]

theorem dictGet_dictSet_ne (m : List (String × Bytes)) (n k : String) (b : Bytes)
    (h : n ≠ k) : dictGet (dictSet m n b) k = dictGet m k := by
  induction m with
  | nil => simp [dictSet, dictGet, h]
  | cons kv rest ih =>
    obtain ⟨k', v'⟩ := kv
    by_cases hk : k' = n
    · subst hk
      simp [dictSet, dictGet, h]
    · simp [dictSet, dictGet, hk, ih]

/- Helper lemmas about the linear file search. -/

theorem findBytes_eq_none_iff (fs : List FileRec) (n : String) :
    findBytes fs n = none ↔ n ∉ fs.map Prod.fst := by
  induction fs with
  | nil => simp [findBytes]
  | cons kv rest ih =>
    obtain ⟨k, v⟩ := kv
    by_cases h : k = n
    · subst h
      simp [findBytes]
    · have hstep : findBytes ((k, v) :: rest) n = findBytes rest n := by
        simp [findBytes, h]
      rw [hstep, ih]
      simp only [List.map_cons, List.mem_cons]
      constructor
      · intro hnr hor
        cases hor with
        | inl he => exact h he.symm
        | inr hm => exact hnr hm
      · intro hall hm
        exact hall (Or.inr hm)

theorem findBytes_append_of_some (xs ys : List FileRec) (n : String) (b : Bytes)
    (h : findBytes xs n = some b) : findBytes (xs ++ ys) n = some b := by
  induction xs with
  | nil => simp [findBytes] at h
  | cons kv rest ih =>
    obtain ⟨k, v⟩ := kv
    by_cases hk : k = n
    · simp [findBytes, hk] at h ⊢
      exact h
    · simp [findBytes, hk] at h ⊢
      exact ih h

theorem findBytes_append_of_none (xs ys : List FileRec) (n : String)
    (h : findBytes xs n = none) : findBytes (xs ++ ys) n = findBytes ys n := by
  induction xs with
  | nil => simp
  | cons kv rest ih =>
    obtain ⟨k, v⟩ := kv
    by_cases hk : k = n
    · simp [findBytes, hk] at h
    · simp [findBytes, hk] at h ⊢
      exact ih h

/- The merge loop appends exactly the uploads whose names are outside the
snapshot, in batch order. -/

theorem mergeLoop_eq_filter (ex : List String) (fs ups : List FileRec) :
    mergeLoop ex fs ups = fs ++ ups.filter (fun u => decide (u.1 ∉ ex)) := by
  induction ups generalizing fs with
  | nil => simp [mergeLoop]
  | cons uf rest ih =>
    by_cases h : uf.1 ∈ ex
    · simp [mergeLoop, h, ih]
    · simp [mergeLoop, h, ih]

theorem findBytes_filter_not_mem (ex : List String) (ups : List FileRec) (n : String)
    (hn : n ∉ ex) :
    findBytes (ups.filter (fun u => decide (u.1 ∉ ex))) n = findBytes ups n := by
  have hrw : (fun u : FileRec => decide (u.1 ∉ ex)) = (fun u : FileRec => !decide (u.1 ∈ ex)) := by
    funext u
    simp
  rw [hrw]
  induction ups with
  | nil => simp
  | cons uf rest ih =>
    obtain ⟨k, v⟩ := uf
    simp only [List.filter_cons]
    by_cases hex : k ∈ ex
    · have hk : ¬k = n := fun he => hn (he ▸ hex)
      simp [hex, findBytes, hk, ih]
    · by_cases hk : k = n
      · simp [hex, hn, findBytes, hk]
      · simp [hex, findBytes, hk, ih]

theorem saveResult_files (st : SessionState) (n : String) (r : RunResult ρ) :
    (saveResult st n r).files = st.files := by
  cases r <;> rfl

/- Step equations for the run loop. -/

theorem runBatchAux_cons_ok (adapter : Bytes → Except ε (RunResult ρ)) (total : Nat)
    (st : SessionState) (idx : Nat) (m : String) (rest : List String)
    (b : Bytes) (ret : RunResult ρ)
    (hg : getOriginal st m = Except.ok b) (ha : adapter b = Except.ok ret) :
    runBatchAux adapter total st idx (m :: rest) =
      ((runBatchAux adapter total (saveResult st m ret) (idx + 1) rest).1,
       (idx, total) :: (runBatchAux adapter total (saveResult st m ret) (idx + 1) rest).2.1,
       (runBatchAux adapter total (saveResult st m ret) (idx + 1) rest).2.2) := by
  simp [runBatchAux, hg, ha]

theorem runBatchAux_cons_adapter_err (adapter : Bytes → Except ε (RunResult ρ)) (total : Nat)
    (st : SessionState) (idx : Nat) (m : String) (rest : List String)
    (b : Bytes) (e : ε)
    (hg : getOriginal st m = Except.ok b) (ha : adapter b = Except.error e) :
    runBatchAux adapter total st idx (m :: rest) = (st, [], some (BatchError.adapter e)) := by
  simp [runBatchAux, hg, ha]

/- A batch never touches cached results of names outside the selection. -/

theorem runBatchAux_preserves_unselected (adapter : Bytes → Except ε (RunResult ρ))
    (total : Nat) :
    ∀ (names : List String) (st : SessionState) (idx : Nat) (n : String), n ∉ names →
      dictGet (runBatchAux adapter total st idx names).1.outputs_overlay n
          = dictGet st.outputs_overlay n
        ∧ dictGet (runBatchAux adapter total st idx names).1.outputs_gradcam n
          = dictGet st.outputs_gradcam n := by
  intro names
  induction names with
  | nil =>
    intro st idx n _
    exact ⟨rfl, rfl⟩
  | cons m rest ih =>
    intro st idx n hn
    have hmn : m ≠ n := fun he => hn (he ▸ List.mem_cons_self m rest)
    have hnr : n ∉ rest := fun hr => hn (List.mem_cons_of_mem _ hr)
    cases hg : getOriginal st m with
    | error msg => simp [runBatchAux, hg]
    | ok b =>
      cases ha : adapter b with
      | error e => simp [runBatchAux, hg, ha]
      | ok ret =>
        have hov : dictGet (saveResult st m ret).outputs_overlay n
            = dictGet st.outputs_overlay n := by
          cases ret <;> simp [saveResult, dictGet_dictSet_ne _ _ _ _ hmn]
        have hgc : dictGet (saveResult st m ret).outputs_gradcam n
            = dictGet st.outputs_gradcam n := by
          cases ret <;> simp [saveResult, dictGet_dictSet_ne _ _ _ _ hmn]
        have hrec := ih (saveResult st m ret) (idx + 1) n hnr
        simp [runBatchAux, hg, ha, hrec.1, hrec.2, hov, hgc]

/- On a fully successful batch, the emitted progress events are exactly the
pairs (idx, total) for idx counting up from the start index. -/

theorem runBatchAux_events_of_ok (adapter : Bytes → Except ε (RunResult ρ)) (total : Nat) :
    ∀ (names : List String) (st : SessionState) (idx : Nat),
      (runBatchAux adapter total st idx names).2.2 = none →
      (runBatchAux adapter total st idx names).2.1
        = (List.range names.length).map (fun i => (idx + i, total)) := by
  intro names
  induction names with
  | nil =>
    intro st idx _
    rfl
  | cons m rest ih =>
    intro st idx h
    cases hg : getOriginal st m with
    | error msg => simp [runBatchAux, hg] at h
    | ok b =>
      cases ha : adapter b with
      | error e => simp [runBatchAux, hg, ha] at h
      | ok ret =>
        have h' : (runBatchAux adapter total (saveResult st m ret) (idx + 1) rest).2.2
            = none := by
          simpa [runBatchAux, hg, ha] using h
        have hfun : (fun i : Nat => (idx + 1 + i, total))
            = (fun i : Nat => (idx + (i + 1), total)) := by
          funext i
          have harith : idx + 1 + i = idx + (i + 1) := by omega
          rw [harith]
        simp [runBatchAux, hg, ha, ih _ _ h', List.range_succ_eq_map, List.map_map,
          Function.comp, hfun, Nat.succ_eq_add_one]

/- Reading results after a save. -/

theorem getOverlay_saveResult_self (st : SessionState) (m : String) (r : RunResult ρ)
    (h : r.overlayOf ≠ []) : getOverlay (saveResult st m r) m = some r.overlayOf := by
  cases r with
  | two ov u =>
    simp only [RunResult.overlayOf] at h ⊢
    simp [saveResult, getOverlay, dictGet_dictSet_self, h]
  | three ov u gc =>
    simp only [RunResult.overlayOf] at h ⊢
    simp [saveResult, getOverlay, dictGet_dictSet_self, h]

theorem getOverlay_saveResult_ne (st : SessionState) (m n : String) (r : RunResult ρ)
    (h : m ≠ n) : getOverlay (saveResult st m r) n = getOverlay st n := by
  cases r <;> simp [saveResult, getOverlay, dictGet_dictSet_ne _ _ _ _ h]

theorem getGradcam_saveResult_ne (st : SessionState) (m n : String) (r : RunResult ρ)
    (h : m ≠ n) : getGradcam (saveResult st m r) n = getGradcam st n := by
  cases r <;> simp [saveResult, getGradcam, dictGet_dictSet_ne _ _ _ _ h]

/-- C1 (counterexample): a duplicate name arriving in the SAME upload batch is
not ignored — the `existing` snapshot (src/app.py:63) is computed before the
loop and never updated, so both records named "a" are appended and the store
holds a duplicate entry for "a". -/
theorem same_batch_duplicate_counterexample :
    (mergeUploads emptySession [("a", [1]), ("a", [2])]).files = [("a", [1]), ("a", [2])]
  ∧ List.count "a" (mergeUploads emptySession [("a", [1]), ("a", [2])]).names = 2 := by
  constructor
  · rfl
  · rfl

/-- C1 (amended): duplicate-name uploads never change the bytes a lookup
returns.  A duplicate arriving in a LATER batch is a silent no-op (the state
is unchanged); lookups always return the bytes of the first upload carrying
the name — for a name already stored the stored bytes win, and for a fresh
name the first occurrence inside the batch wins — but a duplicate inside one
batch does append a second (unreachable) entry. -/
theorem upload_first_write_wins (st : SessionState) (ups : List FileRec)
    (n : String) (b : Bytes) :
    (n ∈ st.names → mergeUploads st [(n, b)] = st)
  ∧ (getOriginal st n = Except.ok b → getOriginal (mergeUploads st ups) n = Except.ok b)
  ∧ (n ∉ st.names → findBytes (mergeUploads st ups).files n = findBytes ups n) := by
  refine ⟨?_, ?_, ?_⟩
  · intro h
    have h' : n ∈ st.files.map Prod.fst := h
    simp [mergeUploads, mergeLoop, h']
  · intro hok
    have hf : findBytes st.files n = some b := by
      unfold getOriginal at hok
      cases hfb : findBytes st.files n with
      | some x =>
        rw [hfb] at hok
        simpa using hok
      | none =>
        rw [hfb] at hok
        cases hok
    have hres : findBytes (mergeUploads st ups).files n = some b := by
      simp only [mergeUploads, mergeLoop_eq_filter]
      exact findBytes_append_of_some _ _ _ _ hf
    simp [getOriginal, hres]
  · intro hn
    have hn' : n ∉ st.files.map Prod.fst := hn
    have hf : findBytes st.files n = none := (findBytes_eq_none_iff _ _).2 hn'
    simp only [mergeUploads, mergeLoop_eq_filter]
    rw [findBytes_append_of_none _ _ _ hf]
    exact findBytes_filter_not_mem _ _ _ hn'

/-- C1 (witness): a later-batch duplicate of "a" is a no-op, and a fresh name
"b" appearing twice in one batch reads as its first occurrence. -/
theorem upload_first_write_wins_witness :
    mergeUploads ⟨[("a", [1])], [], []⟩ [("a", [9])] = ⟨[("a", [1])], [], []⟩
  ∧ findBytes (mergeUploads ⟨[("a", [1])], [], []⟩ [("b", [3]), ("b", [4])]).files "b"
      = findBytes [("b", [3]), ("b", [4])] "b" :=
  ⟨(upload_first_write_wins ⟨[("a", [1])], [], []⟩ [("a", [9])] "a" [9]).1 (by decide),
   (upload_first_write_wins ⟨[("a", [1])], [], []⟩ [("b", [3]), ("b", [4])] "b" []).2.2
     (by decide)⟩

/-- C4: the default selection is the full known-name list when the select-all
toggle is true, and otherwise exactly the first min(4, N) known names in known
order. -/
theorem default_selection_policy (ns : List String) :
    defaultSelection true ns = ns
  ∧ (defaultSelection false ns).length = min 4 ns.length
  ∧ ∀ i : Nat, i < min 4 ns.length → (defaultSelection false ns)[i]? = ns[i]? := by
  refine ⟨rfl, ?_, ?_⟩
  · simp only [defaultSelection, if_neg Bool.false_ne_true, List.length_take]
    omega
  · intro i hi
    simp only [defaultSelection, if_neg Bool.false_ne_true]
    rw [List.getElem?_take_of_lt hi]

/-- C4 (witness): with select_all off and ten known names, the default
selection is exactly the first four. -/
theorem default_selection_policy_witness :
    defaultSelection false ["n1", "n2", "n3", "n4", "n5", "n6", "n7", "n8", "n9", "n10"]
      = ["n1", "n2", "n3", "n4"]
  ∧ (defaultSelection false ["n1", "n2", "n3", "n4", "n5", "n6", "n7", "n8", "n9", "n10"])[2]?
      = (["n1", "n2", "n3", "n4", "n5", "n6", "n7", "n8", "n9", "n10"] : List String)[2]? :=
  ⟨by decide,
   (default_selection_policy ["n1", "n2", "n3", "n4", "n5", "n6", "n7", "n8", "n9", "n10"]).2.2
     2 (by decide)⟩

/-- C5: a name freshly added via add_image reads back exactly the supplied
bytes, and the lookup raises its KeyError message exactly when the name is
absent from the store. -/
theorem get_original_contract (st : SessionState) (n : String) (b : Bytes) :
    (n ∉ st.names → getOriginal (addImage st n b) n = Except.ok b)
  ∧ (getOriginal st n = Except.error (n ++ " not found") ↔ n ∉ st.names) := by
  constructor
  · intro hn
    have hn' : n ∉ st.files.map Prod.fst := hn
    have hf : findBytes st.files n = none := (findBytes_eq_none_iff _ _).2 hn'
    have hres : findBytes (addImage st n b).files n = some b := by
      simp only [addImage, mergeUploads, mergeLoop_eq_filter]
      rw [findBytes_append_of_none _ _ _ hf]
      simp [findBytes, hn']
    simp [getOriginal, hres]
  · constructor
    · intro h
      cases hfb : findBytes st.files n with
      | some x =>
        unfold getOriginal at h
        rw [hfb] at h
        cases h
      | none =>
        exact (findBytes_eq_none_iff _ _).1 hfb
    · intro h
      have hf : findBytes st.files n = none := (findBytes_eq_none_iff _ _).2 h
      simp [getOriginal, hf]

/-- C5 (witness): adding "a" with bytes [1, 2] to the empty session and
reading it back. -/
theorem get_original_contract_witness :
    getOriginal (addImage emptySession "a" [1, 2]) "a" = Except.ok [1, 2] :=
  (get_original_contract emptySession "a" [1, 2]).1 (by decide)

/-- C8: the resolved selection only ever contains known names — entries of the
raw selection absent from the known set are silently dropped. -/
theorem selection_resolver_filters (known raw : List String) :
    (∀ n, n ∈ resolveSelection known raw → n ∈ known)
  ∧ (∀ n, n ∉ known → n ∉ resolveSelection known raw)
  ∧ (∀ n, n ∈ resolveSelection known raw → n ∈ raw) := by
  refine ⟨?_, ?_, ?_⟩
  · intro n hn
    have := List.of_mem_filter hn
    simpa using this
  · intro n hk hmem
    exact hk ((by simpa using List.of_mem_filter hmem : n ∈ known))
  · intro n hn
    exact List.mem_of_mem_filter hn

/-- C8 (witness): a stale entry "stale" is dropped while the known entry "b"
is kept and certified known. -/
theorem selection_resolver_filters_witness :
    resolveSelection ["a", "b"] ["b", "stale"] = ["b"]
  ∧ "b" ∈ (["a", "b"] : List String) :=
  ⟨by decide,
   (selection_resolver_filters ["a", "b"] ["b", "stale"]).1 "b" (by decide)⟩

/-- C9: storing a (nonempty) primary blob under a name and fetching it back
returns the identical bytes — the store itself never re-encodes. -/
theorem put_overlay_round_trip (st : SessionState) (n : String) (b : Bytes)
    (h : b ≠ []) : getOverlay (putOverlay st n b) n = some b := by
  simp [putOverlay, getOverlay, dictGet_dictSet_self, h]

/-- C9 (witness): the blob [1, 2, 3] survives a store round-trip untouched. -/
theorem put_overlay_round_trip_witness :
    getOverlay (putOverlay emptySession "a" [1, 2, 3]) "a" = some [1, 2, 3] :=
  put_overlay_round_trip emptySession "a" [1, 2, 3] (by decide)

/-- C10: the result lookups decide presence by Python truthiness of the
stored bytes, so an empty stored blob reads as absent exactly like a missing
key, for the overlay, the gradcam, and hence the whole artifact. -/
theorem empty_blob_reads_absent (st : SessionState) (n : String) :
    (getOverlay st n = none
      ↔ (dictGet st.outputs_overlay n = none ∨ dictGet st.outputs_overlay n = some []))
  ∧ (getGradcam st n = none
      ↔ (dictGet st.outputs_gradcam n = none ∨ dictGet st.outputs_gradcam n = some []))
  ∧ (getArtifact st n = none ↔ getOverlay st n = none) := by
  refine ⟨?_, ?_, ?_⟩
  · cases hd : dictGet st.outputs_overlay n with
    | none => simp [getOverlay, hd]
    | some bb =>
      by_cases hb : bb = []
      · subst hb
        simp [getOverlay, hd]
      · simp [getOverlay, hd, hb]
  · cases hd : dictGet st.outputs_gradcam n with
    | none => simp [getGradcam, hd]
    | some bb =>
      by_cases hb : bb = []
      · subst hb
        simp [getGradcam, hd]
      · simp [getGradcam, hd, hb]
  · cases ho : getOverlay st n with
    | none => simp [getArtifact, ho]
    | some ov => simp [getArtifact, ho]

/-- A concrete three-image session used to exercise the run loop. -/
def sampleStore : SessionState :=
  { files := [("a", [1]), ("b", [2]), ("c", [3])],
    outputs_overlay := [], outputs_gradcam := [] }

/-- A concrete adapter that fails exactly on the bytes of image "b". -/
def failingAdapter : Bytes → Except String (RunResult Unit) :=
  fun b => if b = [2] then Except.error "boom" else Except.ok (RunResult.two b ())

/-- A concrete adapter that always succeeds with a 2-tuple result. -/
def okAdapter : Bytes → Except String (RunResult Unit) :=
  fun b => Except.ok (RunResult.two b ())

/-- C2 (counterexample): the error the loop propagates is the adapter's own
exception value, unchanged: it is identical whether image "b" fails at
1-based index 2 (batch [a, b, c]) or at index 1 (batch [b]), so it cannot be
a RunError carrying the failed name's 1-based index — no such wrapper exists
in the code. -/
theorem run_error_counterexample :
    (runBatch failingAdapter sampleStore ["a", "b", "c"]).2.2
        = some (BatchError.adapter "boom")
  ∧ (runBatch failingAdapter sampleStore ["b"]).2.2
        = some (BatchError.adapter "boom") := by
  constructor
  · rfl
  · rfl

/-- C2 (amended): when the adapter fails on b, the second of [a, b, c], the
loop keeps a's already-written artifact (nothing is rolled back), writes
nothing for b or c, emits only a's progress event, and aborts the remainder
by propagating the adapter's own error unchanged rather than a RunError
carrying the failed name and its 1-based index. -/
theorem run_batch_adapter_failure_aborts {ε ρ : Type}
    (adapter : Bytes → Except ε (RunResult ρ)) (st : SessionState)
    (a b c : String) (ba bb : Bytes) (ra : RunResult ρ) (e : ε)
    (hga : findBytes st.files a = some ba)
    (hra : adapter ba = Except.ok ra)
    (hgb : findBytes st.files b = some bb)
    (hrb : adapter bb = Except.error e) :
    runBatch adapter st [a, b, c]
      = (saveResult st a ra, [(1, 3)], some (BatchError.adapter e))
  ∧ (b ≠ a → getOverlay (runBatch adapter st [a, b, c]).1 b = getOverlay st b)
  ∧ (c ≠ a → getOverlay (runBatch adapter st [a, b, c]).1 c = getOverlay st c)
  ∧ (ra.overlayOf ≠ [] →
      getOverlay (runBatch adapter st [a, b, c]).1 a = some ra.overlayOf) := by
  have hgoa : getOriginal st a = Except.ok ba := by
    simp [getOriginal, hga]
  have hgob : getOriginal (saveResult st a ra) b = Except.ok bb := by
    simp [getOriginal, saveResult_files, hgb]
  have hmain : runBatch adapter st [a, b, c]
      = (saveResult st a ra, [(1, 3)], some (BatchError.adapter e)) := by
    simp only [runBatch, List.length_cons, List.length_nil]
    rw [runBatchAux_cons_ok adapter 3 st 1 a [b, c] ba ra hgoa hra]
    rw [runBatchAux_cons_adapter_err adapter 3 (saveResult st a ra) 2 b [c] bb e hgob hrb]
  refine ⟨hmain, ?_, ?_, ?_⟩
  · intro hne
    rw [hmain]
    exact getOverlay_saveResult_ne st a b ra (fun he => hne he.symm)
  · intro hne
    rw [hmain]
    exact getOverlay_saveResult_ne st a c ra (fun he => hne he.symm)
  · intro hov
    rw [hmain]
    exact getOverlay_saveResult_self st a ra hov

/-- C2 (amended, witness): the concrete failing batch over the sample store,
with the adapter failing on b's bytes. -/
theorem run_batch_adapter_failure_aborts_witness :
    runBatch failingAdapter sampleStore ["a", "b", "c"]
      = (saveResult sampleStore "a" (RunResult.two [1] ()), [(1, 3)],
         some (BatchError.adapter "boom"))
  ∧ getOverlay (runBatch failingAdapter sampleStore ["a", "b", "c"]).1 "b"
      = getOverlay sampleStore "b" :=
  ⟨(run_batch_adapter_failure_aborts failingAdapter sampleStore "a" "b" "c" [1] [2]
      (RunResult.two [1] ()) "boom" (by decide) rfl (by decide) rfl).1,
   (run_batch_adapter_failure_aborts failingAdapter sampleStore "a" "b" "c" [1] [2]
      (RunResult.two [1] ()) "boom" (by decide) rfl (by decide) rfl).2.1 (by decide)⟩

/-- C3 (counterexample): a later run that supplies no secondary does NOT
replace the whole artifact.  After a 3-tuple run stores gradcam [7] for "a"
and a 2-tuple run then stores overlay [6], the artifact read back is
([6], some [7]) — the earlier run's secondary survives — instead of the most
recent run's ([6], none). -/
theorem stale_secondary_counterexample :
    getArtifact (saveResult (saveResult emptySession "a" (RunResult.three [5] () [7]))
        "a" (RunResult.two [6] ())) "a" = some ([6], some [7])
  ∧ getArtifact (saveResult (saveResult emptySession "a" (RunResult.three [5] () [7]))
        "a" (RunResult.two [6] ())) "a" ≠ some ([6], none) := by
  constructor
  · rfl
  · decide

/-- C3 (amended): get_artifact is none before any run targeting n — absent
initially and untouched by batches that do not select n; a 3-tuple run
replaces the whole artifact; a 2-tuple run replaces the primary but leaves a
previously stored secondary in place, so the artifact is merged rather than
replaced whole. -/
theorem artifact_overwrite_semantics {ε ρ : Type}
    (adapter : Bytes → Except ε (RunResult ρ)) (st : SessionState)
    (names : List String) (n : String) (ov gc : Bytes) (u : ρ)
    (hov : ov ≠ []) (hgc : gc ≠ []) :
    getArtifact emptySession n = none
  ∧ (n ∉ names → getArtifact (runBatch adapter st names).1 n = getArtifact st n)
  ∧ getArtifact (saveResult st n (RunResult.three ov u gc)) n = some (ov, some gc)
  ∧ getOverlay (saveResult st n (RunResult.two ov u)) n = some ov
  ∧ getGradcam (saveResult st n (RunResult.two ov u)) n = getGradcam st n := by
  refine ⟨rfl, ?_, ?_, ?_, ?_⟩
  · intro hn
    have h := runBatchAux_preserves_unselected adapter names.length names st 1 n hn
    simp only [runBatch]
    simp only [getArtifact, getOverlay, getGradcam, h.1, h.2]
  · simp [saveResult, getArtifact, getOverlay, getGradcam, dictGet_dictSet_self, hov, hgc]
  · simp [saveResult, getOverlay, dictGet_dictSet_self, hov]
  · simp [saveResult, getGradcam]

/-- C3 (amended, witness): a batch over ["a"] leaves "zz" artifact-free, and a
3-tuple run for "zz" installs the whole artifact. -/
theorem artifact_overwrite_semantics_witness :
    getArtifact (runBatch failingAdapter sampleStore ["a"]).1 "zz"
        = getArtifact sampleStore "zz"
  ∧ getArtifact (saveResult sampleStore "zz" (RunResult.three [5] () [7])) "zz"
        = some ([5], some [7]) :=
  ⟨(artifact_overwrite_semantics failingAdapter sampleStore ["a"] "zz" [5] [7] ()
      (by decide) (by decide)).2.1 (by decide),
   (artifact_overwrite_semantics failingAdapter sampleStore ["a"] "zz" [5] [7] ()
      (by decide) (by decide)).2.2.1⟩

/-- C6: both adapter result arities are accepted: a 3-tuple run stores primary
and secondary, a 2-tuple run stores only the primary and leaves the secondary
cache untouched, and a singleton batch over a stored name finishes without an
error for either shape. -/
theorem adapter_arity_support {ε ρ : Type} (st : SessionState) (n : String)
    (ov gc : Bytes) (u : ρ) (hov : ov ≠ []) (hgc : gc ≠ []) :
    (getOverlay (saveResult st n (RunResult.three ov u gc)) n = some ov
      ∧ getGradcam (saveResult st n (RunResult.three ov u gc)) n = some gc)
  ∧ (getOverlay (saveResult st n (RunResult.two ov u)) n = some ov
      ∧ (saveResult st n (RunResult.two ov u)).outputs_gradcam = st.outputs_gradcam)
  ∧ (∀ (r : RunResult ρ) (b : Bytes), findBytes st.files n = some b →
      (runBatch (fun _ => (Except.ok r : Except ε (RunResult ρ))) st [n]).2.2 = none) := by
  refine ⟨⟨?_, ?_⟩, ⟨?_, rfl⟩, ?_⟩
  · simp [saveResult, getOverlay, dictGet_dictSet_self, hov]
  · simp [saveResult, getGradcam, dictGet_dictSet_self, hgc]
  · simp [saveResult, getOverlay, dictGet_dictSet_self, hov]
  · intro r b hb
    have hg : getOriginal st n = Except.ok b := by
      simp [getOriginal, hb]
    simp only [runBatch]
    rw [runBatchAux_cons_ok (fun _ => (Except.ok r : Except ε (RunResult ρ)))
      ([n] : List String).length st 1 n [] b r hg rfl]
    rfl

/-- C6 (witness): storing a 3-tuple and a 2-tuple result for "a", and a
successful singleton batch with a 2-tuple adapter. -/
theorem adapter_arity_support_witness :
    getGradcam (saveResult sampleStore "a" (RunResult.three [5] () [7])) "a" = some [7]
  ∧ (saveResult sampleStore "a" (RunResult.two [5] ())).outputs_gradcam
      = sampleStore.outputs_gradcam
  ∧ (runBatch (fun _ => (Except.ok (RunResult.two [5] ()) : Except String (RunResult Unit)))
        sampleStore ["a"]).2.2 = none :=
  ⟨(@adapter_arity_support String Unit sampleStore "a" [5] [7] ()
      (by decide) (by decide)).1.2,
   (@adapter_arity_support String Unit sampleStore "a" [5] [7] ()
      (by decide) (by decide)).2.1.2,
   (@adapter_arity_support String Unit sampleStore "a" [5] [7] ()
      (by decide) (by decide)).2.2 (RunResult.two [5] ()) [1] (by decide)⟩

/-- C7: the batch is strictly sequential — processing m :: rest writes m's
artifact into the session and only then processes rest from that updated
state, with the 1-based index advancing — and a fully successful batch emits
exactly one progress event (i, total) per item, with i counting 1..total in
input order. -/
theorem run_batch_sequential_progress {ε ρ : Type}
    (adapter : Bytes → Except ε (RunResult ρ)) (st : SessionState)
    (names : List String) :
    ((runBatch adapter st names).2.2 = none →
      (runBatch adapter st names).2.1
        = (List.range names.length).map (fun i => (i + 1, names.length)))
  ∧ (∀ (m : String) (rest : List String) (b : Bytes) (r : RunResult ρ),
      getOriginal st m = Except.ok b → adapter b = Except.ok r →
      runBatch adapter st (m :: rest)
        = ((runBatchAux adapter (m :: rest).length (saveResult st m r) 2 rest).1,
           (1, (m :: rest).length)
             :: (runBatchAux adapter (m :: rest).length (saveResult st m r) 2 rest).2.1,
           (runBatchAux adapter (m :: rest).length (saveResult st m r) 2 rest).2.2)) := by
  constructor
  · intro h
    have hfun : (fun i : Nat => (1 + i, names.length))
        = (fun i : Nat => (i + 1, names.length)) := by
      funext i
      rw [Nat.add_comm]
    simp only [runBatch] at h ⊢
    rw [runBatchAux_events_of_ok adapter names.length names st 1 h, hfun]
  · intro m rest b r hg ha
    simp only [runBatch]
    rw [runBatchAux_cons_ok adapter (m :: rest).length st 1 m rest b r hg ha]

/-- C7 (witness): a successful two-image batch emits [(1, 2), (2, 2)] and
decomposes into processing "a" first and then ["b"] from the updated state. -/
theorem run_batch_sequential_progress_witness :
    (runBatch okAdapter sampleStore ["a", "b"]).2.1 = [(1, 2), (2, 2)]
  ∧ runBatch okAdapter sampleStore ["a", "b"]
      = ((runBatchAux okAdapter 2 (saveResult sampleStore "a" (RunResult.two [1] ())) 2 ["b"]).1,
         (1, 2) :: (runBatchAux okAdapter 2
             (saveResult sampleStore "a" (RunResult.two [1] ())) 2 ["b"]).2.1,
         (runBatchAux okAdapter 2
             (saveResult sampleStore "a" (RunResult.two [1] ())) 2 ["b"]).2.2) := by
  constructor
  · have h := (run_batch_sequential_progress okAdapter sampleStore ["a", "b"]).1 rfl
    rw [h]
    rfl
  · exact (run_batch_sequential_progress okAdapter sampleStore ["a", "b"]).2 "a" ["b"] [1]
      (RunResult.two [1] ()) rfl rfl
